import Mathlib

/-!
Verification of the CBU gold-prices API (`src/main.py`).

The development shallowly embeds the three parts of the program that the
specification's testable properties talk about:

* the HTML table extractor `parse_table` (together with the helper
  `normalize_digits`), modelled as pure functions over a structured
  HTML-node tree (`Node`);
* the file cache `load_cache` / `save_cache` / `clear_cache`, modelled as
  functions over an explicit cache-file state (`CacheFile`) with the
  current time passed explicitly (an integer clock; the code uses a fixed
  UTC+5 offset for every timestamp, so a single linear clock is faithful);
* the request handler `get_gold_prices`, modelled as a function from the
  force flag, the outcome of the outbound HTTP request, the clock values
  at its four time-reading points and the initial cache-file state to the
  final cache-file state and the HTTP-level outcome (a JSON response or a
  raised HTTPException).

Python's `re` digit/date patterns are implemented over `List Char`
(ASCII digits, with the backtracking behaviour of `\d{1,2}\.\d{1,2}\.\d{4}`
reproduced explicitly); `str.strip` and case-insensitive matching are
modelled for the ASCII range plus the non-breaking space, which covers
every character the patterns in the source can interact with.

A small interleaving model (`Sys`, `stepThread`, `runSched`) embeds the
lock structure of `get_gold_prices` for two concurrent requests in order
to settle the concurrency claim.
-/

/-! ### Character and string helpers (Python `re` / `str` behaviour) -/

/-- Whitespace for `str.strip()` via `get_text(" ", strip=True)`:
ASCII whitespace plus the non-breaking space U+00A0. -/
def isPySpace (c : Char) : Bool :=
  c == ' ' || c == '\t' || c == '\n' || c == '\r' || c == '\x0b' || c == '\x0c' ||
    c == '\xa0'

/-- Python `str.strip()` on a character list. -/
def pyStrip (cs : List Char) : List Char :=
  ((cs.dropWhile isPySpace).reverse.dropWhile isPySpace).reverse

/-- Substring test: `needle in hay` for Python strings. -/
def containsSub (needle hay : List Char) : Bool :=
  hay.tails.any (fun t => needle.isPrefixOf t)

/-- ASCII lowercase, modelling `re.I` matching of the ASCII keywords. -/
def lowerStr (cs : List Char) : List Char :=
  cs.map Char.toLower

/-- Value of a digit string, as `int` on a string of ASCII digits
(`natOfDigits [] = 0`, matching the `if digits else 0` guard). -/
def natOfDigits (cs : List Char) : Nat :=
  cs.foldl (fun n c => n * 10 + (c.toNat - 48)) 0

/-- Single pass of `re.findall(r"\d+", s)`: `acc` holds the digits of
the current run in reverse; a run is flushed when it ends. -/
def digitRunsAux : List Char → List Char → List (List Char)
  | [], acc => if acc.isEmpty then [] else [acc.reverse]
  | c :: rest, acc =>
    if c.isDigit then
      digitRunsAux rest (c :: acc)
    else if acc.isEmpty then
      digitRunsAux rest []
    else
      acc.reverse :: digitRunsAux rest []

/-- All maximal runs of digits, in order: `re.findall(r"\d+", s)`. -/
def digitRuns (cs : List Char) : List (List Char) :=
  digitRunsAux cs []

/-- The first digit run, if any: `re.search(r"(\d+)", s)`. -/
def firstDigitRun (cs : List Char) : Option (List Char) :=
  (digitRuns cs).head?

/-- `s.replace(" ", " ")`. -/
def nbspToSpace (cs : List Char) : List Char :=
  cs.map (fun c => if c == '\xa0' then ' ' else c)

/-- `normalize_digits` from `src/main.py`: replace non-breaking spaces,
collect all digit runs, concatenate them and read the result as an
integer, with 0 when there is no digit at all. -/
def normalize_digits (s : String) : Nat :=
  natOfDigits (List.flatten (digitRuns (nbspToSpace s.data)))

/-! ### The date pattern `(\d{1,2}\.\d{1,2}\.\d{4})`

`re.search` semantics: scan start positions left to right; at each
position the quantifiers `\d{1,2}` are greedy with backtracking. -/

/-- `\d{4}` at the current position (further characters may follow). -/
def matchYear : List Char → Option (List Char)
  | a :: b :: c :: d :: _ =>
    if a.isDigit && b.isDigit && c.isDigit && d.isDigit then some [a, b, c, d] else none
  | _ => none

/-- `\.\d{4}` at the current position. -/
def matchDotYear : List Char → Option (List Char)
  | '.' :: rest => (matchYear rest).map (fun s => '.' :: s)
  | _ => none

/-- `\d{1,2}\.\d{4}` at the current position (month then year),
greedy two-digit month first, backtracking to one digit. -/
def matchMY : List Char → Option (List Char)
  | [] => none
  | m1 :: rest =>
    if m1.isDigit then
      match rest with
      | m2 :: r2 =>
        if m2.isDigit then
          match matchDotYear r2 with
          | some s => some (m1 :: m2 :: s)
          | none => (matchDotYear rest).map (fun s => m1 :: s)
        else (matchDotYear rest).map (fun s => m1 :: s)
      | [] => none
    else none

/-- `\.\d{1,2}\.\d{4}` at the current position. -/
def matchDotMY : List Char → Option (List Char)
  | '.' :: rest => (matchMY rest).map (fun s => '.' :: s)
  | _ => none

/-- The full date pattern anchored at the current position,
greedy two-digit day first, backtracking to one digit. -/
def matchDateAt : List Char → Option (List Char)
  | [] => none
  | d1 :: rest =>
    if d1.isDigit then
      match rest with
      | d2 :: r2 =>
        if d2.isDigit then
          match matchDotMY r2 with
          | some s => some (d1 :: d2 :: s)
          | none => (matchDotMY rest).map (fun s => d1 :: s)
        else (matchDotMY rest).map (fun s => d1 :: s)
      | [] => none
    else none

/-- `date_pattern.search`: leftmost match of the date pattern. -/
def dateSearch : List Char → Option (List Char)
  | [] => none
  | c :: rest =>
    match matchDateAt (c :: rest) with
    | some s => some s
    | none => dateSearch rest

/-- The loop `for el in table.find_all(text=True)` with
`date_pattern.search(el)`: first text node containing a date match. -/
def findDate : List String → Option String
  | [] => none
  | s :: rest =>
    match dateSearch s.data with
    | some m => some (String.mk m)
    | none => findDate rest

/-! ### The HTML node tree -/

/-- A parsed HTML document: element nodes carry a tag name, the list of
CSS classes of their `class` attribute, and their children in source
order; text nodes carry their string. -/
inductive Node where
  | elem (tag : String) (classes : List String) (children : List Node)
  | text (s : String)

mutual

/-- Text descendants of a node's subtree, in document order (the node's
own string for a text node; for an element, the strings below it, which
is `find_all(text=True)` relative to that element). -/
def nodeTexts : Node → List String
  | .text s => [s]
  | .elem _ _ cs => textsList cs

/-- Text descendants of a forest, in document order. -/
def textsList : List Node → List String
  | [] => []
  | n :: rest => nodeTexts n ++ textsList rest

end

/-- `get_text(" ", strip=True)`: strip every text fragment, drop the ones
that become empty, join the rest with a single space. -/
def getText (n : Node) : String :=
  String.intercalate " "
    (((nodeTexts n).map (fun s => String.mk (pyStrip s.data))).filter (fun s => !(s == "")))

/-- The bordered-table class the selectors look for. -/
def tbClass : String := "table-bordered"

/-- A `table` element whose class list contains the exact token
`table-bordered` (what the CSS selector `table.table-bordered` requires). -/
def isBordTable : Node → Bool
  | .elem t cls _ => t == "table" && cls.contains tbClass
  | .text _ => false

/-- A `table` element one of whose classes contains `table-bordered`
as a substring: the fallback
`soup.find("table", class_=lambda c: c and "table-bordered" in c)`
(BeautifulSoup applies the callable to each class value separately). -/
def fallbackPred : Node → Bool
  | .elem t cls _ => t == "table" && cls.any (fun cl => containsSub tbClass.data cl.data)
  | .text _ => false

/-- An `h1` element. -/
def isH1 : Node → Bool
  | .elem t _ _ => t == "h1"
  | .text _ => false

mutual

/-- Matches of `h1 ~ table.table-bordered` contributed by one node, in
document order: the node itself when an `h1` occurred among its preceding
siblings (flag `b`) and it is an exact-class bordered table, followed by
the matches inside it (whose own sibling flag starts afresh). -/
def primNode : Node → Bool → List Node
  | .text _, _ => []
  | .elem t cls cs, b =>
    (if b && isBordTable (.elem t cls cs) then [Node.elem t cls cs] else [])
      ++ primList cs false

/-- Matches of `h1 ~ table.table-bordered` in a forest, in document
order. The flag records whether an `h1` element occurred among the
preceding siblings at the current level. -/
def primList : List Node → Bool → List Node
  | [], _ => []
  | n :: rest, b => primNode n b ++ primList rest (b || isH1 n)

end

/-- `soup.select_one("h1 ~ table.table-bordered")`: first match in
document order among the strict descendants of the document node. -/
def selectPrimary : Node → Option Node
  | .elem _ _ cs => (primList cs false).head?
  | .text _ => none

mutual

/-- A node together with its descendant elements, in document
(pre-)order (empty for a text node). -/
def elemsOfAndSelf : Node → List Node
  | .text _ => []
  | .elem t cls cs => Node.elem t cls cs :: elemsList cs

/-- All element nodes of a forest, in document (pre-)order. -/
def elemsList : List Node → List Node
  | [] => []
  | n :: rest => elemsOfAndSelf n ++ elemsList rest

end

/-- Strict descendant elements of the document node, in document order. -/
def elemsOf : Node → List Node
  | .elem _ _ cs => elemsList cs
  | .text _ => []

/-- The fallback `soup.find(...)`: first element in document order
satisfying `fallbackPred`. -/
def selectFallback (doc : Node) : Option Node :=
  (elemsOf doc).find? fallbackPred

/-- `table.select_one(...) or soup.find(...)` from `parse_table`. -/
def findTable (doc : Node) : Option Node :=
  match selectPrimary doc with
  | some t => some t
  | none => selectFallback doc

mutual

/-- `tr` elements of `table.select("tbody tr")` contributed by one node:
the node itself when it is a `tr` with a `tbody` ancestor below the table
(flag `b`), followed by matches inside it. -/
def trsNode : Node → Bool → List Node
  | .text _, _ => []
  | .elem t cls cs, b =>
    (if b && (t == "tr") then [Node.elem t cls cs] else [])
      ++ trsList cs (b || (t == "tbody"))

/-- `tr` descendants that have a `tbody` ancestor below the table
(`table.select("tbody tr")`), in document order; the flag records being
inside a `tbody`. -/
def trsList : List Node → Bool → List Node
  | [], _ => []
  | n :: rest, b => trsNode n b ++ trsList rest b

end

/-- `table.select("tbody tr")` relative to the table node. -/
def trsOf : Node → List Node
  | .elem _ _ cs => trsList cs false
  | .text _ => []

mutual

/-- `td` elements of `tr.find_all("td")` contributed by one node. -/
def tdsNode : Node → List Node
  | .text _ => []
  | .elem t cls cs => (if t == "td" then [Node.elem t cls cs] else []) ++ tdsList cs

/-- `td` descendants of a forest in document order (`tr.find_all("td")`). -/
def tdsList : List Node → List Node
  | [] => []
  | n :: rest => tdsNode n ++ tdsList rest

end

/-- `tr.find_all("td")` relative to a row node. -/
def tdsOf : Node → List Node
  | .elem _ _ cs => tdsList cs
  | .text _ => []

/-- The header/label denylist `og'ir|ogʻir|ogir|sotish|narx`, lowercased. -/
def denyPats : List (List Char) :=
  ["og\x27ir".data, "ogʻir".data, "ogir".data, "sotish".data, "narx".data]

/-- `re.search(r"og'ir|ogʻir|ogir|sotish|narx", first_text, flags=re.I)`:
case-insensitive substring match of any denylist keyword. -/
def denyMatch (s : String) : Bool :=
  denyPats.any (fun p => containsSub p (lowerStr s.data))

/-- A parsed price row: `{"weight_g": ..., "price_uzs": ..., "price_str": ...}`. -/
structure PriceEntry where
  weight_g : Nat
  price_uzs : Nat
  price_str : String
deriving DecidableEq

/-- The body of the row loop of `parse_table`: skip rows without cells,
rows whose first cell matches the denylist, and rows whose first cell has
no digit; otherwise build the entry from the first digit run of the first
cell and the text of the second cell (empty when there is no second cell). -/
def parseRow (tr : Node) : Option PriceEntry :=
  match tdsOf tr with
  | [] => none
  | td0 :: rest =>
    let firstText := getText td0
    if denyMatch firstText then none
    else
      match firstDigitRun firstText.data with
      | none => none
      | some run =>
        let priceText := match rest with
          | [] => ""
          | td1 :: _ => getText td1
        some ⟨natOfDigits run, normalize_digits priceText, priceText⟩

/-- The sort key relation of `sorted(rows, key=lambda r: r["weight_g"])`. -/
def weightLE (a b : PriceEntry) : Prop :=
  a.weight_g ≤ b.weight_g

instance : DecidableRel weightLE := fun a b => Nat.decLe a.weight_g b.weight_g

instance : IsTotal PriceEntry weightLE := ⟨fun a b => Nat.le_total a.weight_g b.weight_g⟩

instance : IsTrans PriceEntry weightLE := ⟨fun _ _ _ => Nat.le_trans⟩

/-- Python's `sorted` is a stable sort by the key; a stable sort by a
total preorder is extensionally the insertion sort by that preorder. -/
def sortRows (l : List PriceEntry) : List PriceEntry :=
  List.insertionSort weightLE l

/-- The unsorted row list of a table, in source order. -/
def tableRows (table : Node) : List PriceEntry :=
  (trsOf table).filterMap parseRow

/-- `parse_table` from `src/main.py`: `none` models the `(None, None)`
"table not found" return, otherwise the `last_updated` date (if any) and
the rows sorted ascending by weight. -/
def parse_table (doc : Node) : Option (Option String × List PriceEntry) :=
  match findTable doc with
  | none => none
  | some table => some (findDate (nodeTexts table), sortRows (tableRows table))

/-- The entry list of a `parse_table` result ([] on NotFound). -/
def rowsOf : Option (Option String × List PriceEntry) → List PriceEntry
  | none => []
  | some (_, rows) => rows

/-! ### The file cache (`load_cache`, `save_cache`, `clear_cache`)

The cache file is modelled as an explicit state: absent, present but
unreadable (unparsable JSON or a bad/missing `expires_at` — every case the
`except Exception` of `load_cache` swallows), or present with a payload
and an expiry instant. Clock instants are integers (the code reads
`datetime.now(UZB_TZ)` everywhere, a single fixed-offset clock). -/

/-- `CACHE_TTL = timedelta(hours=24)`, in seconds. -/
def CACHE_TTL : Int := 24 * 60 * 60

/-- The snapshot built by a successful `fetch_and_parse` (its constant
`source` field is omitted; `retrieved_at` is the clock value taken there). -/
structure FetchResult where
  last_updated : Option String
  retrieved_at : Int
  prices : List PriceEntry
deriving DecidableEq

/-- What a readable cache file stores: the snapshot plus `expires_at`. -/
structure CacheData where
  result : FetchResult
  expires_at : Int
deriving DecidableEq

/-- The state of the cache file on disk. -/
inductive CacheFile where
  | absent
  | corrupt
  | stored (d : CacheData)
deriving DecidableEq

/-- `load_cache` from `src/main.py`: `none` when the file is absent,
unreadable, or expired (`datetime.now(UZB_TZ) < expires_at` fails);
otherwise the parsed data. -/
def load_cache (now : Int) : CacheFile → Option CacheData
  | .absent => none
  | .corrupt => none
  | .stored d => if now < d.expires_at then some d else none

/-- `save_cache` from `src/main.py`: overwrite the file with the result
plus `expires_at = now + CACHE_TTL`, and return `expires_at`. -/
def save_cache (now : Int) (result : FetchResult) : CacheFile × Int :=
  (.stored ⟨result, now + CACHE_TTL⟩, now + CACHE_TTL)

/-- `clear_cache` from `src/main.py`: delete the file if present
(a no-op when it is already absent). -/
def clear_cache : CacheFile → CacheFile
  | _ => .absent

/-! ### `fetch_and_parse` and the `/gold` handler -/

/-- Outcome of `requests.get`: a raised exception (timeout or transport
error, carrying its message) or a response with a status code and a body. -/
inductive HttpResponse where
  | fail (msg : String)
  | ok (status : Nat) (body : Node)

/-- The exceptions that can cross `fetch_and_parse`: FastAPI
`HTTPException`s and `requests` exceptions. -/
inductive PyErr where
  | httpExc (status : Nat) (detail : String)
  | requestErr (msg : String)
deriving DecidableEq

/-- `str(e)`: Starlette renders an `HTTPException` as
`"{status_code}: {detail}"`; a requests error renders as its message. -/
def errStr : PyErr → String
  | .httpExc s d => toString s ++ ": " ++ d
  | .requestErr m => m

/-- The warning string attached to a stale response. -/
def staleWarning (e : PyErr) : String :=
  "Failed to fetch fresh data: " ++ errStr e ++ ". Returning cached data."

/-- The `except` clause at the end of `get_gold_prices`: re-raise
`HTTPException`s, wrap anything else into a 502. -/
def hardOf : PyErr → PyErr
  | .httpExc s d => .httpExc s d
  | .requestErr m => .httpExc 502 ("Failed to fetch source: " ++ m)

/-- `fetch_and_parse` from `src/main.py`: raise 502 on a non-200 status,
raise 500 when the table is absent, otherwise build the snapshot
(`now` is the clock value read for `retrieved_at`). A transport failure
of `requests.get` propagates as the underlying requests exception. -/
def fetch_and_parse (resp : HttpResponse) (now : Int) : Except PyErr FetchResult :=
  match resp with
  | .fail msg => .error (.requestErr msg)
  | .ok status body =>
    if status ≠ 200 then
      .error (.httpExc 502 ("Source returned status " ++ toString status))
    else
      match parse_table body with
      | none => .error (.httpExc 500 "Could not find gold table on source page")
      | some (lu, rows) => .ok ⟨lu, now, rows⟩

/-- The JSON body of a successful `/gold` response: the snapshot, the
`cache.status` field, `cache.expires_at`, and the optional warning. -/
structure GoldResponse where
  result : FetchResult
  cache_status : String
  expires_at : Int
  warning : Option String
deriving DecidableEq

deriving instance DecidableEq for Except

/-- `get_gold_prices` from `src/main.py`, sequentially (the lock is
modelled separately). Inputs: the `force` query flag, the outcome of the
outbound request, the clock values at the four `datetime.now` points —
`t1` at the first `load_cache`, `t2` inside `fetch_and_parse`, `t3` at
the fallback `load_cache`, `t4` inside `save_cache` — and the initial
cache-file state. Output: the final cache-file state and either a
response or a raised `HTTPException`. -/
def get_gold_prices (force : Bool) (resp : HttpResponse) (t1 t2 t3 t4 : Int)
    (file : CacheFile) : CacheFile × Except PyErr GoldResponse :=
  let file1 := if force then clear_cache file else file
  match load_cache t1 file1 with
  | some d => (file1, .ok ⟨d.result, "hit", d.expires_at, none⟩)
  | none =>
    match fetch_and_parse resp t2 with
    | .ok result =>
      let saved := save_cache t4 result
      (saved.1, .ok ⟨result, "stored", saved.2, none⟩)
    | .error e =>
      match load_cache t3 file1 with
      | some d => (file1, .ok ⟨d.result, "stale", d.expires_at, some (staleWarning e)⟩)
      | none => (file1, .error (hardOf e))

/-- Whether the handler outcome is a 200 response with cache status `hit`. -/
def hitB : Except PyErr GoldResponse → Bool
  | .ok r => r.cache_status == "hit"
  | .error _ => false

/-- Whether the handler outcome is a 200 response with cache status `stale`. -/
def staleB : Except PyErr GoldResponse → Bool
  | .ok r => r.cache_status == "stale"
  | .error _ => false

/-! ### Interleaving model of two concurrent `/gold` requests

Each request executes `get_gold_prices` with `force=false` against an
initially shared cache, with a successful fetch. Its atomic steps, in
program order (`pc` values):

* 0: enter `with cache_lock` (blocks while the lock is held);
* 1: `load_cache()` — to 2 on a usable cache (hit path), else to 3;
* 2: leave the `with` block and return the hit response (done);
* 3: leave the `with` block (lock released before fetching);
* 4: `fetch_and_parse()` — performed outside the lock;
* 5: enter the second `with cache_lock`;
* 6: `save_cache()`;
* 7: leave the `with` block and return the stored response (done);
* 9: done.

The cache file is abstracted to the one bit the control flow reads:
whether a usable (present, readable, unexpired) entry exists. -/

/-- Shared state of the two-request interleaving model: the lock owner
(`none` when free), whether a usable cache entry exists, the two program
counters, and how many fetches have been performed in total. -/
structure Sys where
  lock : Option Bool
  cacheOk : Bool
  pc0 : Nat
  pc1 : Nat
  fetches : Nat
deriving DecidableEq

/-- Program counter of thread `i`. -/
def pcOf (s : Sys) (i : Bool) : Nat :=
  if i then s.pc1 else s.pc0

/-- Set the program counter of thread `i`. -/
def setPc (s : Sys) (i : Bool) (v : Nat) : Sys :=
  if i then { s with pc1 := v } else { s with pc0 := v }

/-- One atomic step of thread `i` (a no-op when the thread is blocked on
the lock or already done). -/
def stepThread (s : Sys) (i : Bool) : Sys :=
  match pcOf s i with
  | 0 =>
    match s.lock with
    | none => setPc { s with lock := some i } i 1
    | some _ => s
  | 1 => if s.cacheOk then setPc s i 2 else setPc s i 3
  | 2 => setPc { s with lock := none } i 9
  | 3 => setPc { s with lock := none } i 4
  | 4 => setPc { s with fetches := s.fetches + 1 } i 5
  | 5 =>
    match s.lock with
    | none => setPc { s with lock := some i } i 6
    | some _ => s
  | 6 => setPc { s with cacheOk := true } i 7
  | 7 => setPc { s with lock := none } i 9
  | _ => s

/-- Run a schedule (the list of thread ids taking successive steps). -/
def runSched : List Bool → Sys → Sys
  | [], s => s
  | i :: sch, s => runSched sch (stepThread s i)

/-- Initial state: lock free, no usable cache, both requests at the start. -/
def initSys : Sys :=
  ⟨none, false, 0, 0, 0⟩

/-- Program counters at which a thread holds the lock (inside one of the
two `with cache_lock` blocks). -/
def inLocked (pc : Nat) : Bool :=
  pc == 1 || pc == 2 || pc == 3 || pc == 6 || pc == 7

/-! ### Concrete documents used by the scenario claims -/

/-- The header-like row `Og'irligi | Narxi` of scenario A. -/
def headerRow : Node :=
  .elem "tr" [] [.elem "td" [] [.text "Og\x27irligi"], .elem "td" [] [.text "Narxi"]]

/-- The data row `5 gramm | 3 250 000` of scenario A. -/
def dataRow : Node :=
  .elem "tr" [] [.elem "td" [] [.text "5 gramm"], .elem "td" [] [.text "3 250 000"]]

/-- The scenario-A document: a bordered table following an `h1`. -/
def exampleHtml : Node :=
  .elem "html" []
    [.elem "body" []
      [.elem "h1" [] [.text "Oltin"],
       .elem "table" ["table-bordered"] [.elem "tbody" [] [headerRow, dataRow]]]]

/-- The expected scenario-A entry. -/
def exampleEntry : PriceEntry :=
  ⟨5, 3250000, "3 250 000"⟩

/-- A document whose only data row has first cell `0`: the first digit
run of the first cell is `0`, so the parsed weight is 0. -/
def zeroHtml : Node :=
  .elem "div" []
    [.elem "table" ["table-bordered"]
      [.elem "tbody" []
        [.elem "tr" [] [.elem "td" [] [.text "0"], .elem "td" [] [.text "100"]]]]]

/-- A fixed snapshot used by the cache counterexamples. -/
def sampleResult : FetchResult :=
  ⟨none, 0, [exampleEntry]⟩

/-- A cache file holding an entry that is valid until instant 25
(used to exercise the stale-fallback branch). -/
def staleFile : CacheFile := .stored ⟨sampleResult, 25⟩

/-- The lock invariant of the interleaving model: a thread is inside a
`with cache_lock` block only while it owns the lock. -/
def LockInv (s : Sys) : Prop :=
  (inLocked s.pc0 = true → s.lock = some false) ∧
    (inLocked s.pc1 = true → s.lock = some true)

/-! ### Cache-store lemmas and claims -/

/-- Once `load_cache` reports no usable cache, it still reports no usable
cache at any later instant (the file unchanged): absent and corrupt files
stay unusable, and an entry expired at `t1` is expired at `t3 ≥ t1`. -/
theorem load_cache_none_mono (f : CacheFile) (t1 t3 : Int) (hle : t1 ≤ t3)
    (h : load_cache t1 f = none) : load_cache t3 f = none := by
  cases f with
  | absent => rfl
  | corrupt => rfl
  | stored d =>
    simp only [load_cache] at h ⊢
    by_cases hlt : t1 < d.expires_at
    · rw [if_pos hlt] at h
      exact absurd h (by simp)
    · rw [if_neg (by omega : ¬ t3 < d.expires_at)]

/-- C5. `load` performed after `save(result)` at time `now` sees an entry
whose `expires_at` is `now + CACHE_TTL` (the value `save` returns), and
that entry is usable exactly at instants strictly before `expires_at` and
expired at or after it. -/
theorem c5_save_load_roundtrip (now t : Int) (r : FetchResult) :
    (save_cache now r).2 = now + CACHE_TTL ∧
      load_cache t (save_cache now r).1
        = if t < now + CACHE_TTL then some ⟨r, now + CACHE_TTL⟩ else none :=
  ⟨rfl, rfl⟩

/-- C6. `clear_cache` followed by `load_cache` yields no usable cache
whatever the prior state and whatever the current time; and `clear_cache`
is idempotent — in particular clearing an already-absent cache is a no-op
(and, being total, raises nothing). -/
theorem c6_invalidate_then_load (f : CacheFile) (t : Int) :
    load_cache t (clear_cache f) = none
      ∧ clear_cache (clear_cache f) = clear_cache f
      ∧ clear_cache CacheFile.absent = CacheFile.absent :=
  ⟨rfl, rfl, rfl⟩

/-- C7. With `force=true` the cache is cleared before the first
`load_cache`, so the handler's outcome is independent of the prior cache
contents — a previously valid entry never short-circuits the fetch — and
the response is never a cache hit. -/
theorem c7_force_ignores_prior_cache (resp : HttpResponse) (t1 t2 t3 t4 : Int)
    (file : CacheFile) :
    get_gold_prices true resp t1 t2 t3 t4 file
        = get_gold_prices true resp t1 t2 t3 t4 CacheFile.absent
      ∧ hitB (get_gold_prices true resp t1 t2 t3 t4 file).2 = false := by
  constructor
  · rfl
  · unfold get_gold_prices
    cases hf : fetch_and_parse resp t2 <;> simp [clear_cache, load_cache, hitB]

/-- C10. In a sequential execution in which the clock does not go
backwards between the first `load_cache` and the fallback `load_cache`
(and nothing else writes the cache file), `get_gold_prices` never
returns a `stale` response: the fetch path is entered only after the
first load found nothing, and the fallback load over the same file at a
later instant then finds nothing either, so every fetch/parse failure
surfaces as a raised error. -/
theorem c10_sequential_never_stale (force : Bool) (resp : HttpResponse)
    (t1 t2 t3 t4 : Int) (file : CacheFile) (h : t1 ≤ t3) :
    staleB (get_gold_prices force resp t1 t2 t3 t4 file).2 = false := by
  unfold get_gold_prices
  cases hl : load_cache t1 (if force then clear_cache file else file) with
  | some d => simp [hl, staleB]
  | none =>
    cases hf : fetch_and_parse resp t2 with
    | ok r => simp [hl, hf, staleB]
    | error e =>
      have h3 := load_cache_none_mono _ t1 t3 h hl
      simp [hl, hf, h3, staleB]

/-- Witness for C10 at a concrete input. -/
theorem c10_sequential_never_stale_witness :
    (0 : Int) ≤ 0
      ∧ staleB (get_gold_prices false (.fail "x") 0 0 0 0 CacheFile.absent).2 = false :=
  ⟨le_refl 0,
    c10_sequential_never_stale false (.fail "x") 0 0 0 0 CacheFile.absent (le_refl 0)⟩

/-- C1 counterexample. The cache file holds an entry whose `expires_at`
(10) has already passed at the request time (20) and the fetch fails with
a transport error. The claim says the entry — "even one whose expires_at
has already passed" — is returned as a `stale` snapshot; the code instead
raises a hard 502: `load_cache` itself rejects expired entries, so the
fallback load finds nothing even though a cached entry exists. -/
theorem c1_counterexample :
    get_gold_prices false (.fail "timeout") 20 20 20 20 (.stored ⟨sampleResult, 10⟩)
      = (.stored ⟨sampleResult, 10⟩,
          .error (.httpExc 502 "Failed to fetch source: timeout")) := by
  decide

/-- C1 amended. When the fetch/parse step fails and the first load found
no usable cache: if the fallback `load_cache` returns an entry (which,
by `load_cache`, requires the entry to be unexpired at that load's
instant — not merely present), the handler returns it as `stale` with a
warning annotation; if the fallback load also finds nothing — the file
being absent, corrupt, or holding an expired entry — the failure
propagates as a raised error (a 502 wrapping for fetch failures,
`HTTPException`s re-raised as they are). -/
theorem c1_fallback_behaviour (force : Bool) (resp : HttpResponse)
    (t1 t2 t3 t4 : Int) (file : CacheFile) (e : PyErr)
    (hf : fetch_and_parse resp t2 = .error e)
    (h1 : load_cache t1 (if force then clear_cache file else file) = none) :
    (∀ d, load_cache t3 (if force then clear_cache file else file) = some d →
        (get_gold_prices force resp t1 t2 t3 t4 file).2
          = .ok ⟨d.result, "stale", d.expires_at, some (staleWarning e)⟩)
      ∧ (load_cache t3 (if force then clear_cache file else file) = none →
        (get_gold_prices force resp t1 t2 t3 t4 file).2 = .error (hardOf e)) := by
  constructor
  · intro d hd
    unfold get_gold_prices
    simp only [h1, hf, hd]
  · intro hd
    unfold get_gold_prices
    simp only [h1, hf, hd]

/-- Witness for C1 (amended), exercising the `stale` branch: the fallback
load at instant 20 finds the entry valid until 25 after the first load at
instant 30 found it expired. -/
theorem c1_fallback_behaviour_witness :
    fetch_and_parse (.fail "boom") 0 = .error (.requestErr "boom")
      ∧ load_cache 30 staleFile = none
      ∧ (get_gold_prices false (.fail "boom") 30 0 20 0 staleFile).2
          = .ok ⟨sampleResult, "stale", 25, some (staleWarning (.requestErr "boom"))⟩ :=
  ⟨rfl, by decide,
    (c1_fallback_behaviour false (.fail "boom") 30 0 20 0 staleFile (.requestErr "boom")
        rfl (by decide)).1 ⟨sampleResult, 25⟩ (by decide)⟩

/-! ### Extractor lemmas and claims -/

/-- Every run flushed by `digitRunsAux` is a nonempty string of digits,
provided the accumulated partial run consists of digits. -/
theorem digitRunsAux_spec (cs : List Char) :
    ∀ acc, (∀ c ∈ acc, c.isDigit = true) →
      ∀ r ∈ digitRunsAux cs acc, r ≠ [] ∧ ∀ c ∈ r, c.isDigit = true := by
  induction cs with
  | nil =>
    intro acc hacc r hr
    simp only [digitRunsAux] at hr
    by_cases he : acc.isEmpty
    · rw [if_pos he] at hr
      simp at hr
    · rw [if_neg he] at hr
      simp only [List.mem_singleton] at hr
      subst hr
      simp only [List.isEmpty_iff] at he
      constructor
      · intro hc
        rw [List.reverse_eq_nil_iff] at hc
        exact he hc
      · intro c hc
        exact hacc c (List.mem_reverse.1 hc)
  | cons c rest ih =>
    intro acc hacc r hr
    simp only [digitRunsAux] at hr
    by_cases hd : c.isDigit
    · rw [if_pos hd] at hr
      refine ih (c :: acc) ?_ r hr
      intro x hx
      rcases List.mem_cons.1 hx with hx | hx
      · subst hx; exact hd
      · exact hacc x hx
    · rw [if_neg hd] at hr
      by_cases he : acc.isEmpty
      · rw [if_pos he] at hr
        exact ih [] (by simp) r hr
      · rw [if_neg he] at hr
        simp only [List.isEmpty_iff] at he
        rcases List.mem_cons.1 hr with hr | hr
        · subst hr
          constructor
          · intro hc
            rw [List.reverse_eq_nil_iff] at hc
            exact he hc
          · intro x hx
            exact hacc x (List.mem_reverse.1 hx)
        · exact ih [] (by simp) r hr

/-- Every run produced by `digitRuns` is a nonempty string of digits. -/
theorem digitRuns_spec (cs : List Char) :
    ∀ r ∈ digitRuns cs, r ≠ [] ∧ ∀ c ∈ r, c.isDigit = true :=
  digitRunsAux_spec cs [] (by simp)

/-- The first digit run, when it exists, is a nonempty string of digits. -/
theorem firstDigitRun_spec (cs run : List Char) (h : firstDigitRun cs = some run) :
    run ≠ [] ∧ ∀ c ∈ run, c.isDigit = true := by
  unfold firstDigitRun at h
  apply digitRuns_spec cs
  cases hd : digitRuns cs with
  | nil => rw [hd] at h; simp at h
  | cons a t =>
    rw [hd] at h
    simp at h
    subst h
    exact List.mem_cons_self a t

/-- Anatomy of a successfully parsed row: the weight is the value of the
(nonempty, all-digit) first digit run of the first cell, and the price
integer is `normalize_digits` of the retained price text. -/
theorem parseRow_spec (tr : Node) (e : PriceEntry) (h : parseRow tr = some e) :
    (∃ run, run ≠ [] ∧ (∀ c ∈ run, c.isDigit = true) ∧ e.weight_g = natOfDigits run)
      ∧ e.price_uzs = normalize_digits e.price_str := by
  unfold parseRow at h
  cases htds : tdsOf tr with
  | nil => rw [htds] at h; simp at h
  | cons td0 rest =>
    rw [htds] at h
    simp only [] at h
    by_cases hd : denyMatch (getText td0)
    · rw [if_pos hd] at h; simp at h
    · rw [if_neg hd] at h
      cases hr : firstDigitRun (getText td0).data with
      | none => rw [hr] at h; simp at h
      | some run =>
        rw [hr] at h
        simp only [Option.some.injEq] at h
        subst h
        obtain ⟨hne, hdig⟩ := firstDigitRun_spec _ run hr
        exact ⟨⟨run, hne, hdig, rfl⟩, rfl⟩

/-- Shape of a found-table `parse_table` result. -/
theorem parse_table_some (doc : Node) (lu : Option String) (rows : List PriceEntry)
    (h : parse_table doc = some (lu, rows)) :
    ∃ table, findTable doc = some table ∧ lu = findDate (nodeTexts table)
      ∧ rows = sortRows (tableRows table) := by
  unfold parse_table at h
  cases hf : findTable doc with
  | none => rw [hf] at h; simp at h
  | some t =>
    rw [hf] at h
    simp only [Option.some.injEq, Prod.mk.injEq] at h
    exact ⟨t, rfl, h.1.symm, h.2.symm⟩

/-- Inserting an entry into a list keeps the subsequence of any fixed
weight `w` intact: the elements the insertion skips have strictly
smaller weight, so they cannot share the inserted entry's weight. -/
theorem filter_orderedInsert_weight (w : Nat) (a : PriceEntry) (l : List PriceEntry) :
    (List.orderedInsert weightLE a l).filter (fun e => e.weight_g == w)
      = ((a :: l).filter (fun e => e.weight_g == w)) := by
  induction l with
  | nil => rfl
  | cons b t ih =>
    by_cases hab : weightLE a b
    · rw [List.orderedInsert, if_pos hab]
    · rw [List.orderedInsert, if_neg hab]
      have hba : b.weight_g < a.weight_g := by
        unfold weightLE at hab; omega
      by_cases haw : a.weight_g = w
      · have hbw : ¬ b.weight_g = w := by omega
        simp [List.filter_cons, beq_iff_eq, haw, hbw, ih]
      · by_cases hbw : b.weight_g = w
        · simp [List.filter_cons, beq_iff_eq, haw, hbw, ih]
        · simp [List.filter_cons, beq_iff_eq, haw, hbw, ih]

/-- Stability of the sort: for every weight `w`, the entries of weight
`w` appear in `sortRows l` exactly as they appear in `l`. -/
theorem filter_sortRows_weight (w : Nat) (l : List PriceEntry) :
    (sortRows l).filter (fun e => e.weight_g == w)
      = l.filter (fun e => e.weight_g == w) := by
  induction l with
  | nil => rfl
  | cons a t ih =>
    show (List.orderedInsert weightLE a (List.insertionSort weightLE t)).filter _ = _
    rw [filter_orderedInsert_weight]
    simp only [sortRows] at ih
    by_cases haw : a.weight_g = w <;>
      simp [List.filter_cons, beq_iff_eq, haw, ih]

/-- A string contains itself as a substring. -/
theorem containsSub_self (l : List Char) : containsSub l l = true := by
  unfold containsSub
  rw [List.any_eq_true]
  refine ⟨l, ?_, ?_⟩
  · simp [List.mem_tails]
  · rw [List.isPrefixOf_iff_prefix]

/-- A table matched by the exact-class primary selector is also matched
by the substring-based fallback predicate. -/
theorem isBordTable_fallback (n : Node) (h : isBordTable n = true) :
    fallbackPred n = true := by
  cases n with
  | text s => simp [isBordTable] at h
  | elem t cls cs =>
    simp only [isBordTable, Bool.and_eq_true] at h
    obtain ⟨ht, hcls⟩ := h
    have hmem : tbClass ∈ cls := List.elem_iff.1 hcls
    simp only [fallbackPred, Bool.and_eq_true, ht, true_and, List.any_eq_true]
    exact ⟨tbClass, hmem, containsSub_self tbClass.data⟩

mutual

/-- Every primary-selector match contributed by a node satisfies the
fallback predicate and lies among the node's elements. -/
theorem mem_primNode (n : Node) (b : Bool) (m : Node) (h : m ∈ primNode n b) :
    fallbackPred m = true ∧ m ∈ elemsOfAndSelf n := by
  cases n with
  | text s => simp [primNode] at h
  | elem t cls cs =>
    rw [primNode] at h
    rcases List.mem_append.1 h with h | h
    · by_cases hb : b && isBordTable (.elem t cls cs)
      · rw [if_pos hb] at h
        simp only [List.mem_singleton] at h
        subst h
        refine ⟨isBordTable_fallback _ (Bool.and_elim_right hb), ?_⟩
        rw [elemsOfAndSelf]
        exact List.mem_cons_self _ _
      · rw [if_neg hb] at h
        simp at h
    · obtain ⟨hfp, hm⟩ := mem_primList cs false m h
      refine ⟨hfp, ?_⟩
      rw [elemsOfAndSelf]
      exact List.mem_cons_of_mem _ hm

/-- Every match of the primary selector satisfies the fallback predicate
and is an element of the document. -/
theorem mem_primList (l : List Node) (b : Bool) (m : Node) (h : m ∈ primList l b) :
    fallbackPred m = true ∧ m ∈ elemsList l := by
  cases l with
  | nil => simp [primList] at h
  | cons n rest =>
    rw [primList] at h
    rcases List.mem_append.1 h with h | h
    · obtain ⟨hfp, hm⟩ := mem_primNode n b m h
      refine ⟨hfp, ?_⟩
      rw [elemsList]
      exact List.mem_append.2 (Or.inl hm)
    · obtain ⟨hfp, hm⟩ := mem_primList rest (b || isH1 n) m h
      refine ⟨hfp, ?_⟩
      rw [elemsList]
      exact List.mem_append.2 (Or.inr hm)

end

/-- C2 counterexample. On a table whose data row has first cell `0`,
the extractor emits an entry with `weight_g = 0`: the produced entries do
not all satisfy the data-model invariant `weight_g > 0`. -/
theorem c2_counterexample :
    ¬ ∀ e ∈ rowsOf (parse_table zeroHtml), 0 < e.weight_g := by
  decide

/-- Data flow of a successfully parsed row, exposing the cells: the row
has a first cell `td0`, its text survives the denylist, `firstDigitRun`
on that text yields `run`, and the entry's weight is the value of that
very run. -/
theorem parseRow_shape (tr : Node) (e : PriceEntry) (h : parseRow tr = some e) :
    ∃ td0 rest run,
      tdsOf tr = td0 :: rest
        ∧ denyMatch (getText td0) = false
        ∧ firstDigitRun (getText td0).data = some run
        ∧ e.weight_g = natOfDigits run := by
  unfold parseRow at h
  cases htds : tdsOf tr with
  | nil => rw [htds] at h; simp at h
  | cons td0 rest =>
    rw [htds] at h
    simp only [] at h
    by_cases hd : denyMatch (getText td0)
    · rw [if_pos hd] at h
      simp at h
    · rw [if_neg hd] at h
      cases hr : firstDigitRun (getText td0).data with
      | none => rw [hr] at h; simp at h
      | some run =>
        rw [hr] at h
        simp only [Option.some.injEq] at h
        subst h
        have hdeny : denyMatch (getText td0) = false := by
          simpa using hd
        exact ⟨td0, rest, run, rfl, hdeny, hr, rfl⟩

/-- C2 amended. Every entry the extractor produces comes from a source
row `tr` of the found table whose first cell `td0` contains a digit, and
its `weight_g` is the value of the (nonempty, all-digit) first digit run
of that first cell's text — a non-negative integer that may be 0, since
the row filter only requires some digit to be present, not a positive
value. -/
theorem c2_weight_from_first_digit_run (doc : Node) (e : PriceEntry)
    (h : e ∈ rowsOf (parse_table doc)) :
    ∃ table tr td0 rest run,
      findTable doc = some table
        ∧ tr ∈ trsOf table
        ∧ parseRow tr = some e
        ∧ tdsOf tr = td0 :: rest
        ∧ firstDigitRun (getText td0).data = some run
        ∧ run ≠ [] ∧ (∀ c ∈ run, c.isDigit = true)
        ∧ e.weight_g = natOfDigits run := by
  cases hp : parse_table doc with
  | none => rw [hp] at h; simp [rowsOf] at h
  | some p =>
    obtain ⟨lu, rows⟩ := p
    rw [hp] at h
    simp only [rowsOf] at h
    obtain ⟨table, hft, hlu, hrows⟩ := parse_table_some doc lu rows hp
    subst hrows
    have hmem : e ∈ tableRows table :=
      ((List.perm_insertionSort weightLE (tableRows table)).mem_iff).1 h
    obtain ⟨tr, htr, hpr⟩ := List.mem_filterMap.1 hmem
    obtain ⟨td0, rest, run, htds, hdeny, hrun, hw⟩ := parseRow_shape tr e hpr
    obtain ⟨hne, hdig⟩ := firstDigitRun_spec _ run hrun
    exact ⟨table, tr, td0, rest, run, hft, htr, hpr, htds, hrun, hne, hdig, hw⟩

/-- Witness for C2 (amended) at the scenario-A document. -/
theorem c2_weight_from_first_digit_run_witness :
    exampleEntry ∈ rowsOf (parse_table exampleHtml)
      ∧ ∃ table tr td0 rest run,
          findTable exampleHtml = some table
            ∧ tr ∈ trsOf table
            ∧ parseRow tr = some exampleEntry
            ∧ tdsOf tr = td0 :: rest
            ∧ firstDigitRun (getText td0).data = some run
            ∧ run ≠ [] ∧ (∀ c ∈ run, c.isDigit = true)
            ∧ exampleEntry.weight_g = natOfDigits run :=
  ⟨by decide, c2_weight_from_first_digit_run exampleHtml exampleEntry (by decide)⟩

/-- C3. Whenever the extractor finds the table, the returned entries are
sorted ascending by `weight_g`; the sort is stable — for every weight the
subsequence of entries of that weight is exactly their subsequence in the
source-order row list of the found table — and every entry's `price_uzs`
is `normalize_digits` of its own retained `price_str` (all digit runs of
the raw price text concatenated, 0 when there is none). -/
theorem c3_sorted_stable_prices (doc : Node) (lu : Option String)
    (rows : List PriceEntry) (h : parse_table doc = some (lu, rows)) :
    List.Pairwise weightLE rows
      ∧ (∃ table, findTable doc = some table ∧
          ∀ w, rows.filter (fun e => e.weight_g == w)
            = (tableRows table).filter (fun e => e.weight_g == w))
      ∧ ∀ e ∈ rows, e.price_uzs = normalize_digits e.price_str := by
  obtain ⟨table, hft, hlu, hrows⟩ := parse_table_some doc lu rows h
  subst hrows
  refine ⟨?_, ⟨table, hft, ?_⟩, ?_⟩
  · exact List.sorted_insertionSort weightLE (tableRows table)
  · intro w
    exact filter_sortRows_weight w (tableRows table)
  · intro e he
    have hmem : e ∈ tableRows table :=
      ((List.perm_insertionSort weightLE (tableRows table)).mem_iff).1 he
    obtain ⟨tr, htr, hpr⟩ := List.mem_filterMap.1 hmem
    exact (parseRow_spec tr e hpr).2

/-- Witness for C3 at the scenario-A document. -/
theorem c3_sorted_stable_prices_witness :
    parse_table exampleHtml = some (none, [exampleEntry])
      ∧ (List.Pairwise weightLE [exampleEntry]
        ∧ (∃ table, findTable exampleHtml = some table ∧
            ∀ w, ([exampleEntry]).filter (fun e => e.weight_g == w)
              = (tableRows table).filter (fun e => e.weight_g == w))
        ∧ ∀ e ∈ [exampleEntry], e.price_uzs = normalize_digits e.price_str) :=
  ⟨by decide, c3_sorted_stable_prices exampleHtml none [exampleEntry] (by decide)⟩

/-- C4. The extractor reports NotFound exactly when neither selector
matches; and since every primary match is also a fallback match, this
happens exactly when no element of the document is a `table` carrying a
class that contains `table-bordered` — total absence of the target table
is the only NotFound condition. (`parse_table` is a total function: on
any tree, malformed or partial tables included, it returns the rows it
parsed rather than raising.) -/
theorem c4_notfound_iff_no_bordered_table (doc : Node) :
    (parse_table doc = none ↔ selectPrimary doc = none ∧ selectFallback doc = none)
      ∧ (parse_table doc = none ↔ ∀ m ∈ elemsOf doc, fallbackPred m = false) := by
  have h1 : parse_table doc = none ↔ findTable doc = none := by
    unfold parse_table
    cases findTable doc <;> simp
  have h2 : findTable doc = none ↔ selectPrimary doc = none ∧ selectFallback doc = none := by
    unfold findTable
    cases hsp : selectPrimary doc <;> simp
  have h3 : selectFallback doc = none ↔ ∀ m ∈ elemsOf doc, fallbackPred m = false := by
    unfold selectFallback
    rw [List.find?_eq_none]
    simp [Bool.not_eq_true]
  have h4 : (∀ m ∈ elemsOf doc, fallbackPred m = false) → selectPrimary doc = none := by
    intro hall
    cases hsp : selectPrimary doc with
    | none => rfl
    | some t =>
      exfalso
      cases doc with
      | text s => simp [selectPrimary] at hsp
      | elem tg cl cs =>
        simp only [selectPrimary] at hsp
        have hmem : t ∈ primList cs false := by
          cases hpl : primList cs false with
          | nil => rw [hpl] at hsp; simp at hsp
          | cons a l =>
            rw [hpl] at hsp
            simp only [List.head?_cons, Option.some.injEq] at hsp
            subst hsp
            exact List.mem_cons_self a l
        obtain ⟨hfp, hmem2⟩ := mem_primList cs false t hmem
        have hfalse := hall t (by simpa [elemsOf] using hmem2)
        rw [hfalse] at hfp
        exact Bool.false_ne_true hfp
  refine ⟨h1.trans h2, h1.trans (h2.trans ?_)⟩
  constructor
  · intro hsp
    exact h3.1 hsp.2
  · intro hall
    exact ⟨h4 hall, h3.2 hall⟩

/-- C8 (scenario A). On the concrete document whose table holds the
header-like row `Og'irligi | Narxi` and the data row
`5 gramm | 3 250 000`, the extractor returns exactly one entry
`{weight_g: 5, price_uzs: 3250000, price_str: "3 250 000"}`; the
header-like row is excluded by the case-insensitive first-cell denylist. -/
theorem c8_scenario_a :
    parse_table exampleHtml = some (none, [exampleEntry]) := by
  decide

/-! ### Concurrency lemmas and claims -/

/-- One step preserves the lock invariant: acquire steps require the lock
to be free, release steps give it up together with leaving the locked
region, and no other step touches the lock or enters the region. -/
theorem stepThread_inv (s : Sys) (i : Bool) (h : LockInv s) :
    LockInv (stepThread s i) := by
  obtain ⟨h0, h1⟩ := h
  unfold stepThread
  split <;> (try split) <;>
    cases i <;>
      simp_all [LockInv, setPc, pcOf, inLocked]

/-- The lock invariant holds along every schedule. -/
theorem runSched_inv (sch : List Bool) (s : Sys) (h : LockInv s) :
    LockInv (runSched sch s) := by
  induction sch generalizing s with
  | nil => exact h
  | cons i sch ih => exact ih (stepThread s i) (stepThread_inv s i h)

/-- C9 counterexample. Under the schedule in which request 0 acquires the
lock, misses the cache and releases, then request 1 does the same, and
then both fetch, the two concurrent requests perform 2 fetches of the
same resource — duplicate fetches occur. Moreover, after the first seven
steps request 0 (pc 5, past its fetch, about to re-acquire the lock) and
request 1 (pc 4, about to fetch) are simultaneously inside their
check-then-fetch-then-save sections, so the lock does not keep at most
one request inside that whole section: the fetch happens outside the
`with cache_lock` blocks, and no re-check precedes the save. -/
theorem c9_counterexample :
    (runSched [false, false, false, true, true, true, false, true] initSys).fetches = 2
      ∧ (runSched [false, false, false, true, true, true, false] initSys).pc0 = 5
      ∧ (runSched [false, false, false, true, true, true, false] initSys).pc1 = 4 := by
  decide

/-- C9 amended. What the lock does guarantee: along every schedule, the
two requests are never simultaneously inside a `with cache_lock` block —
the individual cache interactions (the check/hit section and the save
section) are mutually exclusive, even though the full
check-then-fetch-then-save sequence is not. -/
theorem c9_lock_mutual_exclusion (sch : List Bool) :
    (inLocked (runSched sch initSys).pc0
        && inLocked (runSched sch initSys).pc1) = false := by
  have hinv := runSched_inv sch initSys
    ⟨by intro hp; simp [initSys, inLocked] at hp,
     by intro hp; simp [initSys, inLocked] at hp⟩
  obtain ⟨h0, h1⟩ := hinv
  cases hb0 : inLocked (runSched sch initSys).pc0 with
  | false => simp
  | true =>
    cases hb1 : inLocked (runSched sch initSys).pc1 with
    | false => simp
    | true =>
      have e0 := h0 hb0
      have e1 := h1 hb1
      rw [e0] at e1
      exact absurd e1 (by simp)
